import Mathlib

/-!
Verification of the Database Tuning Advisor (DTA) core of the postgres-mcp
repository against its natural-language specification.

The embedding translates the relevant Python code of
`src/postgres_mcp/dta/index_opt_base.py`, `src/postgres_mcp/dta/dta_calc.py`
and `src/postgres_mcp/dta/artifacts.py` into Lean definitions.  Python floats
produced by the cost pipeline are modelled as rationals (`ℚ`); the value
`float("inf")` that the cost-extraction helpers can return is modelled by the
two-point extension `PCost` where that distinction matters
(`calculate_improvement_multiple`, `extract_cost_from_json_plan`,
`_evaluate_configuration_cost`).  Database round-trips (EXPLAIN plans, catalog
lookups, table and index size estimates) are modelled as oracle parameters,
since their results come from the database process, not from this code.
-/

/-- Possibly-infinite cost value: a Python float that is either finite or
`float("inf")`, as produced by `extract_cost_from_json_plan` and
`_evaluate_configuration_cost`. -/
inductive PCost where
  | fin (q : ℚ) : PCost
  | inf : PCost
deriving DecidableEq

/-- Addition on possibly-infinite costs (`inf + x = inf`), mirroring IEEE
addition on the values the cost loop actually produces. -/
def PCost.add : PCost → PCost → PCost
  | .fin a, .fin b => .fin (a + b)
  | _, _ => .inf

/-- Multiplication of a cost by a finite weight, mirroring `cost * weight` in
`_evaluate_configuration_cost`.  Faithful to Python float arithmetic for the
positive weights the advisor works with (`inf * w = inf` requires `w > 0`). -/
def PCost.mul_weight : PCost → ℚ → PCost
  | .fin a, w => .fin (a * w)
  | .inf, _ => .inf

/-- Division of a cost by the query counter, mirroring
`total_cost / valid_queries`. -/
def PCost.div_nat : PCost → ℕ → PCost
  | .fin a, n => .fin (a / n)
  | .inf, _ => .inf

/-- Modelled from the spec: the immutable, hashable index descriptor
`IndexConfig` of the repository's `postgres_mcp.sql` package, whose module is
absent from the available sources (only `__init__.py` and `dml_only_sql.py`
are present).  Per the spec's data model it carries the table name, the
ordered column tuple, the access method (default btree) and the optional
problematic-reason tag.  The spec declares two configs equal iff
`(table, columns, method)` are equal; the derived structural equality below
additionally compares the reason tag, which is indistinguishable from the
spec's equality on every value appearing in this development (all reasons are
`none`). -/
structure IndexConfig where
  table : String
  columns : List String
  using_ : String
  potential_problematic_reason : Option String
deriving DecidableEq

/-- Modelled from the spec: the canonical textual definition of an index,
`CREATE INDEX ON <table> USING <method> (<col1>, <col2>, ...)` (spec section
3, "Derived forms"); the Python property `IndexConfig.definition` lives in
the missing `postgres_mcp.sql` module. -/
def IndexConfig.definition (c : IndexConfig) : String :=
  "CREATE INDEX ON " ++ c.table ++ " USING " ++ c.using_ ++ " (" ++
    String.intercalate ", " c.columns ++ ")"

/-- Workload entry as normalized by `analyze_workload`: the query text plus
the optional `calls` and `avg_exec_time` statistics (absent dictionary keys
are modelled as `none`). -/
structure WorkloadEntry where
  query : String
  calls : Option ℚ
  avg_exec_time : Option ℚ
deriving DecidableEq

/-- Recommendation record mirroring the dataclass `IndexRecommendation` of
`index_opt_base.py` (costs modelled as finite rationals: the formatting loop
stores the values returned by `_evaluate_configuration_cost` unchanged). -/
structure IndexRecommendation where
  table : String
  columns : List String
  using_ : String
  potential_problematic_reason : Option String
  estimated_size_bytes : ℤ
  progressive_base_cost : ℚ
  progressive_recommendation_cost : ℚ
  individual_base_cost : ℚ
  individual_recommendation_cost : ℚ
  queries : List String
  definition : String
deriving DecidableEq

/-- Translation of `calculate_improvement_multiple` from
`dta/artifacts.py` lines 106-113: `None` or nonpositive `new_cost` yields
`float("inf")`; otherwise `None` or nonpositive `base_cost` yields `1.0`;
otherwise the ratio `base_cost / new_cost`. -/
def calculate_improvement_multiple (base_cost new_cost : Option ℚ) : PCost :=
  match new_cost with
  | none => .inf
  | some n =>
    if n ≤ 0 then .inf
    else
      match base_cost with
      | none => .fin 1
      | some b => if b ≤ 0 then .fin 1 else .fin (b / n)

/-- Translation of the property `IndexRecommendation.progressive_improvement_multiple`
(`index_opt_base.py` lines 108-111). -/
def IndexRecommendation.progressive_improvement_multiple (r : IndexRecommendation) : PCost :=
  calculate_improvement_multiple (some r.progressive_base_cost) (some r.progressive_recommendation_cost)

/-- Translation of the property `IndexRecommendation.individual_improvement_multiple`
(`index_opt_base.py` lines 113-116). -/
def IndexRecommendation.individual_improvement_multiple (r : IndexRecommendation) : PCost :=
  calculate_improvement_multiple (some r.individual_base_cost) (some r.individual_recommendation_cost)

/-- Claim C10: `calculate_improvement_multiple` is total (it is a total Lean
function by construction) and case-complete: it returns positive infinity
when `new_cost` is `None` or at most 0, returns 1.0 when (given a positive
`new_cost`) `base_cost` is `None` or at most 0, and otherwise returns
`base_cost / new_cost` with a nonzero divisor; consequently the improvement
multiple properties of `IndexRecommendation` never divide by zero. -/
theorem calculate_improvement_multiple_total (b n : ℚ) (base : Option ℚ)
    (r : IndexRecommendation) :
    calculate_improvement_multiple base none = .inf
    ∧ (n ≤ 0 → calculate_improvement_multiple base (some n) = .inf)
    ∧ (0 < n → calculate_improvement_multiple none (some n) = .fin 1)
    ∧ (0 < n → b ≤ 0 → calculate_improvement_multiple (some b) (some n) = .fin 1)
    ∧ (0 < n → 0 < b →
        calculate_improvement_multiple (some b) (some n) = .fin (b / n) ∧ n ≠ 0)
    ∧ r.progressive_improvement_multiple =
        calculate_improvement_multiple (some r.progressive_base_cost)
          (some r.progressive_recommendation_cost) := by
  refine ⟨rfl, ?_, ?_, ?_, ?_, rfl⟩
  · intro hn
    simp [calculate_improvement_multiple, hn]
  · intro hn
    simp [calculate_improvement_multiple, not_le.mpr hn]
  · intro hn hb
    simp [calculate_improvement_multiple, not_le.mpr hn, hb]
  · intro hn hb
    refine ⟨?_, ne_of_gt hn⟩
    simp [calculate_improvement_multiple, not_le.mpr hn, not_le.mpr hb]

/-- Witness for claim C10 at concrete inputs: base 10 and new cost 5 give the
ratio 2, a `None` new cost gives infinity, and a `None` base gives 1. -/
theorem calculate_improvement_multiple_total_witness :
    calculate_improvement_multiple (some 10) (some 5) = .fin 2
    ∧ calculate_improvement_multiple (some 10) none = .inf
    ∧ calculate_improvement_multiple none (some 5) = .fin 1 := by
  have h := calculate_improvement_multiple_total 10 5 (some 10)
    ⟨"t", ["a"], "btree", none, 0, 1, 1, 1, 1, [], ""⟩
  refine ⟨?_, h.1, h.2.2.1 (by norm_num)⟩
  have h2 := (h.2.2.2.2.1 (by norm_num) (by norm_num)).1
  rw [h2]
  norm_num

/-- Translation of `IndexTuningBase.convert_query_info_to_weight`
(`index_opt_base.py` lines 378-380): each of the two statistics defaults to
1.0 independently via `dict.get`, and the weight is their product. -/
def convert_query_info_to_weight (e : WorkloadEntry) : ℚ :=
  (e.calls.getD 1) * (e.avg_exec_time.getD 1)

/-- Claim C5 (amended): the weight equals `calls * avg_exec_time` when both
statistics are known and 1 when neither is known, but when exactly one of the
two is known the weight equals that known value (each missing statistic
defaults to 1 independently), not 1 as the claim states. -/
theorem convert_query_info_to_weight_cases (q : String) (c a : ℚ) :
    convert_query_info_to_weight ⟨q, some c, some a⟩ = c * a
    ∧ convert_query_info_to_weight ⟨q, none, none⟩ = 1
    ∧ convert_query_info_to_weight ⟨q, some c, none⟩ = c
    ∧ convert_query_info_to_weight ⟨q, none, some a⟩ = a := by
  refine ⟨rfl, ?_, ?_, ?_⟩ <;> simp [convert_query_info_to_weight]

/-- Counterexample to claim C5 as stated: for a workload entry whose `calls`
is 100 with `avg_exec_time` unknown, the computed weight is 100, not the 1
the claim requires for the one-known-statistic case. -/
theorem convert_query_info_to_weight_one_known_counterexample :
    convert_query_info_to_weight ⟨"select a from t", some 100, none⟩ = 100
    ∧ (100 : ℚ) ≠ 1 := by
  constructor
  · simp [convert_query_info_to_weight]
  · norm_num

/-- Translation of Python's `itertools.combinations`: all subsequences of the
input of the given length, each subset once, preserving the input order (used
by `DatabaseTuningAdvisor.generate_candidates`, `dta_calc.py` line 190). -/
def combinations {α : Type} : ℕ → List α → List (List α)
  | 0, _ => [[]]
  | _ + 1, [] => []
  | n + 1, x :: xs => (combinations n xs).map (fun t => x :: t) ++ combinations (n + 1) xs

/-- Membership characterization of `combinations`: exactly the sublists
(order-preserving subsequences) of the requested length. -/
theorem mem_combinations {α : Type} :
    ∀ (n : ℕ) (l t : List α), t ∈ combinations n l ↔ t.Sublist l ∧ t.length = n := by
  intro n l
  induction l generalizing n with
  | nil =>
    intro t
    cases n with
    | zero =>
      simp only [combinations, List.mem_singleton]
      constructor
      · rintro rfl; exact ⟨List.Sublist.refl _, rfl⟩
      · rintro ⟨hs, hl⟩
        exact List.eq_nil_of_length_eq_zero hl
    | succ n =>
      simp only [combinations, List.not_mem_nil, false_iff, not_and]
      intro hs hl
      have := List.sublist_nil.mp hs
      simp [this] at hl
  | cons x xs ih =>
    intro t
    cases n with
    | zero =>
      simp only [combinations, List.mem_singleton]
      constructor
      · rintro rfl; exact ⟨List.nil_sublist _, rfl⟩
      · rintro ⟨hs, hl⟩
        exact List.eq_nil_of_length_eq_zero hl
    | succ n =>
      simp only [combinations, List.mem_append, List.mem_map]
      constructor
      · rintro (⟨t2, ht2, rfl⟩ | h)
        · have := (ih n t2).mp ht2
          exact ⟨List.Sublist.cons₂ x this.1, by simp [this.2]⟩
        · have := (ih (n + 1) t).mp h
          exact ⟨List.Sublist.cons x this.1, this.2⟩
      · rintro ⟨hs, hl⟩
        rcases List.sublist_cons_iff.mp hs with h | ⟨r, rfl, hr⟩
        · exact Or.inr ((ih (n + 1) t).mpr ⟨h, hl⟩)
        · refine Or.inl ⟨r, (ih n r).mpr ⟨hr, ?_⟩, rfl⟩
          simpa using hl

/-- Translation of the per-table enumeration loop of
`DatabaseTuningAdvisor.generate_candidates` (`dta_calc.py` lines 188-191):
for each width `w` in `range(1, min(max_index_width, len(cols)) + 1)` emit
`itertools.combinations(col_list, w)`.  `col_list` is the kept-column list in
its Python set-iteration order. -/
def generate_width_candidates (max_index_width : ℕ) (col_list : List String) : List (List String) :=
  (List.range' 1 (min max_index_width col_list.length)).flatMap
    (fun w => combinations w col_list)

/-- Claim C9 (amended): for each width `w` from 1 through
`min(max_index_width, n_kept_cols)` the candidate generator emits exactly the
`w`-element combinations of the kept-column list in list order: a column
sequence is emitted iff it is an order-preserving subsequence of the column
list of length between 1 and the width cap.  Orderings of a subset other than
the list order are not emitted. -/
theorem generate_width_candidates_mem (max_index_width : ℕ) (col_list : List String)
    (t : List String) :
    t ∈ generate_width_candidates max_index_width col_list ↔
      t.Sublist col_list ∧ 1 ≤ t.length ∧ t.length ≤ min max_index_width col_list.length := by
  unfold generate_width_candidates
  rw [List.mem_flatMap]
  constructor
  · rintro ⟨w, hw, ht⟩
    have hw2 := List.mem_range'_1.mp hw
    have := (mem_combinations w col_list t).mp ht
    exact ⟨this.1, by omega, by omega⟩
  · rintro ⟨hs, h1, h2⟩
    exact ⟨t.length, List.mem_range'_1.mpr ⟨h1, by omega⟩,
      (mem_combinations t.length col_list t).mpr ⟨hs, rfl⟩⟩

/-- Counterexample to claim C9 as stated: with kept columns enumerated as
`[a, b]` and `max_index_width = 2`, the generator emits only `[a]`, `[b]` and
`[a, b]`; the ordering `[b, a]` of the 2-element subset is not emitted, so not
all orderings of each subset appear as distinct candidates. -/
theorem generate_width_candidates_counterexample :
    generate_width_candidates 2 ["a", "b"] = [["a"], ["b"], ["a", "b"]]
    ∧ ["b", "a"] ∉ generate_width_candidates 2 ["a", "b"] := by
  constructor
  · rfl
  · decide

/-- Structural rendering of the SQL built by
`IndexTuningBase._get_query_stats_direct` (`index_opt_base.py` lines
438-447): columns selected, source view, filter columns, ordering. -/
structure StatsQuery where
  selectList : List String
  fromTable : String
  callsFilterColumn : String
  avgTimeFilterExpr : String
  orderByExpr : String
  orderDescending : Bool
deriving DecidableEq

/-- Translation of the literal query text of `_get_query_stats_direct`
(`index_opt_base.py` lines 440-447): it selects `queryid`, `query`, `calls`
and `total_exec_time/calls`, filters on `calls` and `total_exec_time/calls`,
and orders by `total_exec_time` descending. -/
def get_query_stats_direct_query : StatsQuery :=
  ⟨["queryid", "query", "calls", "total_exec_time/calls as avg_exec_time"],
    "pg_stat_statements", "calls", "total_exec_time/calls", "total_exec_time", true⟩

/-- Version-indexed view of the statistics query.  The source path
`analyze_workload → _get_query_stats → _get_query_stats_direct` never probes
the server version, so the constructed query is the same constant for every
major version. -/
def stats_query_for_version (major_version : ℕ) : StatsQuery :=
  get_query_stats_direct_query

/-- Row of the `pg_stat_statements` view as consumed by
`_get_query_stats_direct`. -/
structure StatQueryRow where
  queryid : ℤ
  query : String
  calls : ℚ
  total_exec_time : ℚ
deriving DecidableEq

/-- Relational semantics of the SQL issued by `_get_query_stats_direct`:
rows with `calls >= min_calls` and `total_exec_time/calls >= min_avg_time_ms`,
ordered by `total_exec_time` descending, limited to `lim` rows. -/
def get_query_stats_direct (rows : List StatQueryRow) (min_calls min_avg_time_ms : ℚ)
    (lim : ℕ) : List StatQueryRow :=
  ((rows.filter (fun r => decide (min_calls ≤ r.calls)
      && decide (min_avg_time_ms ≤ r.total_exec_time / r.calls))).insertionSort
    (fun a b => b.total_exec_time ≤ a.total_exec_time)).take lim

instance : IsTotal StatQueryRow (fun a b => b.total_exec_time ≤ a.total_exec_time) :=
  ⟨fun a b => le_total b.total_exec_time a.total_exec_time⟩

instance : IsTrans StatQueryRow (fun a b => b.total_exec_time ≤ a.total_exec_time) :=
  ⟨fun _ _ _ hab hbc => le_trans hbc hab⟩

/-- Claim C7 (amended): the pg_stat_statements fallback selects query text,
call count and average execution time filtered by `calls >= min_calls` and
`total_exec_time/calls >= min_avg_time_ms`, ordered by total execution time
descending and limited by `limit` — but it uses the v13+ column name
`total_exec_time` unconditionally: the query it issues is identical for every
database major version (no version probe exists on this code path). -/
theorem get_query_stats_direct_version_independent (v w : ℕ)
    (rows : List StatQueryRow) (min_calls min_avg_time_ms : ℚ) (lim : ℕ)
    (r : StatQueryRow) :
    stats_query_for_version v = stats_query_for_version w
    ∧ (stats_query_for_version v).orderByExpr = "total_exec_time"
    ∧ (r ∈ get_query_stats_direct rows min_calls min_avg_time_ms lim →
        min_calls ≤ r.calls ∧ min_avg_time_ms ≤ r.total_exec_time / r.calls)
    ∧ (get_query_stats_direct rows min_calls min_avg_time_ms lim).length ≤ lim
    ∧ List.Pairwise (fun a b => b.total_exec_time ≤ a.total_exec_time)
        (get_query_stats_direct rows min_calls min_avg_time_ms lim) := by
  refine ⟨rfl, rfl, ?_, ?_, ?_⟩
  · intro hr
    have hmem : r ∈ (rows.filter (fun r => decide (min_calls ≤ r.calls)
        && decide (min_avg_time_ms ≤ r.total_exec_time / r.calls))) := by
      have := List.mem_of_mem_take hr
      exact (List.perm_insertionSort _ _).mem_iff.mp this
    have := List.of_mem_filter hmem
    simp only [Bool.and_eq_true, decide_eq_true_eq] at this
    exact this
  · calc (get_query_stats_direct rows min_calls min_avg_time_ms lim).length
        = lim ⊓ _ := List.length_take _ _
      _ ≤ lim := min_le_left _ _
  · have hsorted := List.sorted_insertionSort
      (fun a b : StatQueryRow => b.total_exec_time ≤ a.total_exec_time)
      (rows.filter (fun r => decide (min_calls ≤ r.calls)
        && decide (min_avg_time_ms ≤ r.total_exec_time / r.calls)))
    exact hsorted.sublist (List.take_sublist lim _)

/-- Witness for claim C7's amended theorem: a concrete two-row table where
only the high-traffic row passes the filters. -/
theorem get_query_stats_direct_version_independent_witness :
    stats_query_for_version 12 = stats_query_for_version 16
    ∧ ((50 : ℚ) ≤ 60 ∧ (5 : ℚ) ≤ 1200 / 60)
    ∧ (get_query_stats_direct [⟨1, "q1", 60, 1200⟩, ⟨2, "q2", 3, 9⟩] 50 5 10).length ≤ 10 := by
  have h := get_query_stats_direct_version_independent 12 16
    [⟨1, "q1", 60, 1200⟩, ⟨2, "q2", 3, 9⟩] 50 5 10 ⟨1, "q1", 60, 1200⟩
  refine ⟨h.1, h.2.2.1 ?_, h.2.2.2.1⟩
  norm_num [get_query_stats_direct, List.insertionSort, List.orderedInsert]

/-- Counterexample to claim C7 as stated: on database major version 12 the
advisor still issues the query built from `total_exec_time` (the v13+ name);
it does not switch to `total_time`/`mean_time` on versions before 13. -/
theorem stats_query_ignores_version_counterexample :
    stats_query_for_version 12 = stats_query_for_version 13
    ∧ (stats_query_for_version 12).orderByExpr = "total_exec_time"
    ∧ (stats_query_for_version 12).orderByExpr ≠ "total_time"
    ∧ (stats_query_for_version 12).avgTimeFilterExpr ≠ "total_time/calls" := by
  refine ⟨rfl, rfl, ?_, ?_⟩ <;> decide

/-- Concrete index candidate on table `t`, column `a`, used by the concrete
runs below. -/
def cfgA : IndexConfig := ⟨"t", ["a"], "btree", none⟩

/-- Concrete index candidate on table `t`, column `b`, used by the concrete
runs below. -/
def cfgB : IndexConfig := ⟨"t", ["b"], "btree", none⟩

/-- Translation of the recommendation-formatting loop shared by
`DatabaseTuningAdvisor._generate_recommendations` (`dta_calc.py` lines
127-161) and `IndexTuningBase._format_recommendations` (`index_opt_base.py`
lines 736-772).  The loop walks the chosen configurations in the iteration
order of the Python set `best_config[0]`; `indexes_so_far` grows on every
step (even for budget-skipped entries, mirroring the unconditional
`indexes_so_far.append`), the progressive cost is the evaluated cost of
`frozenset(indexes_so_far)`, and `progressive_base_cost`/`total_size` are
updated only when the entry is emitted.  `costOf` and `sizeOf` are the
oracles for `_evaluate_configuration_cost` and `_estimate_index_size`. -/
def format_recommendations_go (costOf : Finset IndexConfig → ℚ) (sizeOf : IndexConfig → ℤ)
    (budget_bytes : ℤ) (queries : List String) (individual_base_cost : ℚ) :
    List IndexConfig → List IndexConfig → ℚ → ℤ → List IndexRecommendation
  | [], _, _, _ => []
  | c :: rest, indexes_so_far, progressive_base_cost, total_size =>
    if budget_bytes < 0 ∨ total_size + sizeOf c ≤ budget_bytes then
      { table := c.table, columns := c.columns, using_ := c.using_,
        potential_problematic_reason := c.potential_problematic_reason,
        estimated_size_bytes := sizeOf c,
        progressive_base_cost := progressive_base_cost,
        progressive_recommendation_cost := costOf ((indexes_so_far ++ [c]).toFinset),
        individual_base_cost := individual_base_cost,
        individual_recommendation_cost := costOf {c},
        queries := queries,
        definition := c.definition } ::
      format_recommendations_go costOf sizeOf budget_bytes queries individual_base_cost
        rest (indexes_so_far ++ [c]) (costOf ((indexes_so_far ++ [c]).toFinset))
        (total_size + sizeOf c)
    else
      format_recommendations_go costOf sizeOf budget_bytes queries individual_base_cost
        rest (indexes_so_far ++ [c]) progressive_base_cost total_size

/-- Entry point of the formatting loop: `budget_bytes = self.budget_mb * 1024
* 1024`, the individual base cost is
`_evaluate_configuration_cost(query_weights, frozenset()) or 1.0` (Python
`or`: a result of `0.0` is replaced by `1.0`), and the progressive base cost
starts at the individual base cost. -/
def format_recommendations (costOf : Finset IndexConfig → ℚ) (sizeOf : IndexConfig → ℤ)
    (budget_mb : ℤ) (queries : List String) (best_config_order : List IndexConfig) :
    List IndexRecommendation :=
  format_recommendations_go costOf sizeOf (budget_mb * 1024 * 1024) queries
    (if costOf ∅ = 0 then 1 else costOf ∅) best_config_order []
    (if costOf ∅ = 0 then 1 else costOf ∅) 0

/-- Translation of the budget update at the start of `analyze_workload`
(`index_opt_base.py` lines 216-217): `self.budget_mb` is overwritten with
`max_index_size_mb` only when the latter is strictly positive; otherwise the
constructor-configured budget (default -1) stays in effect. -/
def effective_budget_mb (ctor_budget_mb max_index_size_mb : ℤ) : ℤ :=
  if 0 < max_index_size_mb then max_index_size_mb else ctor_budget_mb

/-- Helper invariant for the budget proof: the formatting loop only emits an
entry when the running total plus its size stays within the budget. -/
theorem format_recommendations_go_sum_le (costOf : Finset IndexConfig → ℚ)
    (sizeOf : IndexConfig → ℤ) (budget_bytes : ℤ) (queries : List String)
    (individual_base_cost : ℚ) (hbb : 0 ≤ budget_bytes) :
    ∀ (order indexes_so_far : List IndexConfig) (pb : ℚ) (total : ℤ),
      total ≤ budget_bytes →
      total + ((format_recommendations_go costOf sizeOf budget_bytes queries
          individual_base_cost order indexes_so_far pb total).map
        (fun r => r.estimated_size_bytes)).sum ≤ budget_bytes := by
  intro order
  induction order with
  | nil =>
    intro so_far pb total htot
    simpa [format_recommendations_go] using htot
  | cons c rest ih =>
    intro so_far pb total htot
    by_cases h : budget_bytes < 0 ∨ total + sizeOf c ≤ budget_bytes
    · have hle : total + sizeOf c ≤ budget_bytes := by
        rcases h with h | h
        · omega
        · exact h
      have := ih (so_far ++ [c]) (costOf ((so_far ++ [c]).toFinset)) (total + sizeOf c) hle
      simp only [format_recommendations_go, if_pos h, List.map_cons, List.sum_cons]
      omega
    · have := ih (so_far ++ [c]) pb total htot
      simpa only [format_recommendations_go, if_neg h] using this

/-- Claim C1 (amended): when `analyze_workload` is called with
`max_index_size_mb = B > 0` the budget is set to `B` and the sum of
`estimated_size_bytes` over the returned recommendations is at most
`B * 2^20`.  (A call with `B ≤ 0` leaves the constructor-configured budget in
effect — default -1, which disables the budget — so `B = 0` does not bound
the total.) -/
theorem analyze_workload_budget_containment (ctor_budget_mb B : ℤ) (hB : 0 < B)
    (costOf : Finset IndexConfig → ℚ) (sizeOf : IndexConfig → ℤ)
    (queries : List String) (best_config_order : List IndexConfig) :
    ((format_recommendations costOf sizeOf (effective_budget_mb ctor_budget_mb B)
        queries best_config_order).map (fun r => r.estimated_size_bytes)).sum
      ≤ B * 1024 * 1024 := by
  have heff : effective_budget_mb ctor_budget_mb B = B := if_pos hB
  have hbb : (0 : ℤ) ≤ B * 1024 * 1024 := by positivity
  have := format_recommendations_go_sum_le costOf sizeOf (B * 1024 * 1024) queries
    (if costOf ∅ = 0 then 1 else costOf ∅) hbb best_config_order []
    (if costOf ∅ = 0 then 1 else costOf ∅) 0 hbb
  simpa [format_recommendations, heff] using this

/-- Witness for claim C1's amended theorem: with a constructor budget of -1
and `max_index_size_mb = 2`, a single 5-byte recommendation keeps the total
within `2 * 2^20`. -/
theorem analyze_workload_budget_containment_witness :
    ((format_recommendations (fun _ => (100 : ℚ)) (fun _ => (5 : ℤ))
        (effective_budget_mb (-1) 2) [] [cfgA]).map
      (fun r => r.estimated_size_bytes)).sum ≤ 2 * 1024 * 1024 :=
  analyze_workload_budget_containment (-1) 2 (by norm_num)
    (fun _ => (100 : ℚ)) (fun _ => (5 : ℤ)) [] [cfgA]

/-- Counterexample to claim C1 as stated: a call with `max_index_size_mb = 0`
(which the claim covers, since `B ≥ 0`) does not set the budget — the
constructor default -1 stays in effect, the formatting loop treats the budget
as disabled, and a 5-byte recommendation is returned even though
`B * 2^20 = 0`. -/
theorem analyze_workload_budget_zero_counterexample :
    effective_budget_mb (-1) 0 = -1
    ∧ ((format_recommendations (fun _ => (100 : ℚ)) (fun _ => (5 : ℤ))
        (effective_budget_mb (-1) 0) [] [cfgA]).map
      (fun r => r.estimated_size_bytes)).sum = 5
    ∧ ¬ ((5 : ℤ) ≤ 0 * 1024 * 1024) := by
  refine ⟨rfl, ?_, by norm_num⟩
  norm_num [format_recommendations, format_recommendations_go, effective_budget_mb]

/-- Chain invariant: the first emitted recommendation has progressive base
`pb`, and every later one has progressive base equal to its predecessor's
progressive recommended cost. -/
def ChainedFrom (pb : ℚ) : List IndexRecommendation → Prop
  | [] => True
  | r :: rest => r.progressive_base_cost = pb ∧ ChainedFrom r.progressive_recommendation_cost rest

/-- Helper: the formatting loop emits a `ChainedFrom` list — the progressive
base is threaded through emitted entries only. -/
theorem format_recommendations_go_chainedFrom (costOf : Finset IndexConfig → ℚ)
    (sizeOf : IndexConfig → ℤ) (budget_bytes : ℤ) (queries : List String)
    (individual_base_cost : ℚ) :
    ∀ (order indexes_so_far : List IndexConfig) (pb : ℚ) (total : ℤ),
      ChainedFrom pb (format_recommendations_go costOf sizeOf budget_bytes queries
        individual_base_cost order indexes_so_far pb total) := by
  intro order
  induction order with
  | nil =>
    intro so_far pb total
    simp [format_recommendations_go, ChainedFrom]
  | cons c rest ih =>
    intro so_far pb total
    by_cases h : budget_bytes < 0 ∨ total + sizeOf c ≤ budget_bytes
    · simp only [format_recommendations_go, if_pos h]
      exact ⟨rfl, ih (so_far ++ [c]) (costOf ((so_far ++ [c]).toFinset)) (total + sizeOf c)⟩
    · simp only [format_recommendations_go, if_neg h]
      exact ih (so_far ++ [c]) pb total

/-- Helper: a `ChainedFrom` list satisfies the consecutive-pairs chain
property. -/
theorem chainedFrom_chain' :
    ∀ (l : List IndexRecommendation) (pb : ℚ), ChainedFrom pb l →
      List.Chain' (fun a b => b.progressive_base_cost = a.progressive_recommendation_cost) l := by
  intro l
  induction l with
  | nil => intro pb _; exact List.chain'_nil
  | cons r rest ih =>
    intro pb h
    cases rest with
    | nil => exact List.chain'_singleton r
    | cons r2 rest2 =>
      have h2 := h.2
      exact List.chain'_cons.mpr ⟨h2.1, ih r.progressive_recommendation_cost h2⟩

/-- Helper: every emitted recommendation carries the fixed individual base
cost computed before the loop. -/
theorem format_recommendations_go_individual_base (costOf : Finset IndexConfig → ℚ)
    (sizeOf : IndexConfig → ℤ) (budget_bytes : ℤ) (queries : List String)
    (individual_base_cost : ℚ) :
    ∀ (order indexes_so_far : List IndexConfig) (pb : ℚ) (total : ℤ)
      (r : IndexRecommendation),
      r ∈ format_recommendations_go costOf sizeOf budget_bytes queries
        individual_base_cost order indexes_so_far pb total →
      r.individual_base_cost = individual_base_cost := by
  intro order
  induction order with
  | nil =>
    intro so_far pb total r hr
    simp [format_recommendations_go] at hr
  | cons c rest ih =>
    intro so_far pb total r hr
    by_cases h : budget_bytes < 0 ∨ total + sizeOf c ≤ budget_bytes
    · simp only [format_recommendations_go, if_pos h, List.mem_cons] at hr
      rcases hr with rfl | hr
      · rfl
      · exact ih _ _ _ r hr
    · simp only [format_recommendations_go, if_neg h] at hr
      exact ih _ _ _ r hr

/-- Claim C3 (amended): in the returned recommendation list, each
recommendation's progressive base cost equals the previous recommendation's
progressive recommended cost, and every recommendation's individual base cost
equals the evaluated cost of the empty configuration unless that cost is
exactly 0, in which case it equals 1.0 (the Python `or 1.0` fallback on line
125 of `dta_calc.py` / line 735 of `index_opt_base.py`). -/
theorem format_recommendations_progressive_chain (costOf : Finset IndexConfig → ℚ)
    (sizeOf : IndexConfig → ℤ) (budget_mb : ℤ) (queries : List String)
    (best_config_order : List IndexConfig) :
    List.Chain' (fun a b => b.progressive_base_cost = a.progressive_recommendation_cost)
      (format_recommendations costOf sizeOf budget_mb queries best_config_order)
    ∧ ∀ r ∈ format_recommendations costOf sizeOf budget_mb queries best_config_order,
        r.individual_base_cost = (if costOf ∅ = 0 then 1 else costOf ∅) := by
  constructor
  · exact chainedFrom_chain' _ _ (format_recommendations_go_chainedFrom costOf sizeOf
      (budget_mb * 1024 * 1024) queries (if costOf ∅ = 0 then 1 else costOf ∅)
      best_config_order [] (if costOf ∅ = 0 then 1 else costOf ∅) 0)
  · intro r hr
    exact format_recommendations_go_individual_base costOf sizeOf
      (budget_mb * 1024 * 1024) queries (if costOf ∅ = 0 then 1 else costOf ∅)
      best_config_order [] (if costOf ∅ = 0 then 1 else costOf ∅) 0 r hr

/-- Cost oracle for the concrete two-index formatting run: empty
configuration costs 100, index `a` alone 80, index `b` alone 95, both
together 60. -/
def c3CostOf : Finset IndexConfig → ℚ := fun s =>
  if cfgA ∈ s then (if cfgB ∈ s then 60 else 80) else (if cfgB ∈ s then 95 else 100)

/-- Concrete formatting run used by the claim C3 witness. -/
def c3Recs : List IndexRecommendation :=
  format_recommendations c3CostOf (fun _ => 0) (-1) ["select a from t"] [cfgA, cfgB]

/-- First recommendation of the concrete claim C3 run. -/
def c3Rec1 : IndexRecommendation :=
  ⟨"t", ["a"], "btree", none, 0, 100, 80, 100, 80, ["select a from t"],
    "CREATE INDEX ON t USING btree (a)"⟩

/-- Witness for claim C3's amended theorem on the concrete two-index run. -/
theorem format_recommendations_progressive_chain_witness :
    List.Chain' (fun a b => b.progressive_base_cost = a.progressive_recommendation_cost) c3Recs
    ∧ c3Rec1.individual_base_cost = (if c3CostOf ∅ = 0 then 1 else c3CostOf ∅) := by
  have h := format_recommendations_progressive_chain c3CostOf (fun _ => 0) (-1)
    ["select a from t"] [cfgA, cfgB]
  refine ⟨h.1, h.2 c3Rec1 ?_⟩
  have hev : c3Recs = [c3Rec1,
      ⟨"t", ["b"], "btree", none, 0, 80, 60, 100, 95, ["select a from t"],
        "CREATE INDEX ON t USING btree (b)"⟩] := by
    norm_num [c3Recs, c3Rec1, format_recommendations, format_recommendations_go, c3CostOf,
      cfgA, cfgB, IndexConfig.definition, String.intercalate]
    decide
  show c3Rec1 ∈ c3Recs
  rw [hev]
  exact List.mem_cons_self _ _

/-- Counterexample to claim C3 as stated: when the evaluated cost of the
empty configuration is 0 (all plans report zero total cost), the Python
`or 1.0` fallback makes every recommendation's `individual_base_cost` equal
to 1, not to the evaluated empty-configuration cost 0. -/
theorem format_recommendations_individual_base_counterexample :
    (fun _ : Finset IndexConfig => (0 : ℚ)) ∅ = 0
    ∧ ((format_recommendations (fun _ => (0 : ℚ)) (fun _ => 0) (-1) [] [cfgA]).map
        (fun r => r.individual_base_cost)) = [1]
    ∧ (1 : ℚ) ≠ 0 := by
  refine ⟨rfl, ?_, by norm_num⟩
  norm_num [format_recommendations, format_recommendations_go]

/-- Session result of `analyze_workload` restricted to the fields the
reset-discipline claims observe: workload source tag, recommendations and
error (`DTASession` in `index_opt_base.py` lines 119-129). -/
structure OrchSession where
  workload_source : String
  recommendations : List IndexRecommendation
  error : Option String
deriving DecidableEq

/-- Oracle environment for the `analyze_workload` orchestrator: outcomes of
the database-facing steps.  `precheckError` is the error produced by
`_run_prechecks` (`none` = all checks pass); `fileEntries` is
`_get_workload_from_file` (which may raise); `statsEntries` is
`_get_query_stats`; `validate` is `_validate_and_parse_workload`;
`generate` is the combined
`_generate_recommendations`/`_format_recommendations` step, returning either
the formatted recommendations or the raised error message, together with the
number of `hypopg_reset()` calls the step performed internally before its
outcome (`generate_candidates` resets once after the batch size estimation
when it creates hypothetical indexes). -/
structure OrchEnv where
  precheckError : Option String
  fileEntries : String → Except String (List WorkloadEntry)
  statsEntries : Except String (List WorkloadEntry)
  validate : List WorkloadEntry → List WorkloadEntry
  generate : Except (String × ℕ) (List IndexRecommendation × ℕ)

/-- Python truthiness of an optional list argument (`if workload:`): a
present, non-empty list. -/
def truthy_list {α : Type} : Option (List α) → Bool
  | some (_ :: _) => true
  | _ => false

/-- Python truthiness of an optional string argument (`elif sql_file:`): a
present, non-empty string. -/
def truthy_str : Option String → Bool
  | some s => decide (s ≠ "")
  | none => false

/-- Translation of the control flow of `IndexTuningBase.analyze_workload`
(`index_opt_base.py` lines 178-295) together with a count of executed
`hypopg_reset()` statements.  Source priority is workload → query_list →
sql_file → pg_stat_statements, each tested with Python truthiness.  Inside
the `try` block an empty workload returns early; otherwise the workload is
validated, converted to query weights, and if any weights remain the
generation step runs, followed — only on its success — by the single
`SELECT hypopg_reset();` of line 288.  A raised exception is caught by the
`except` clause, which records `Error in workload analysis: <e>` on the
session; no reset is executed on that path, nor on any early return. -/
def analyze_workload (env : OrchEnv) (workload : Option (List WorkloadEntry))
    (sql_file : Option String) (query_list : Option (List String)) : OrchSession × ℕ :=
  match env.precheckError with
  | some e => (⟨"n/a", [], some e⟩, 0)
  | none =>
    let pick : String × Except String (List WorkloadEntry) :=
      if truthy_list workload then ("args", .ok (workload.getD []))
      else if truthy_list query_list then
        ("query_list", .ok ((query_list.getD []).map (fun q => ⟨q, none, none⟩)))
      else if truthy_str sql_file then ("sql_file", env.fileEntries (sql_file.getD ""))
      else ("query_store", env.statsEntries)
    match pick.2 with
    | .error e => (⟨pick.1, [], some ("Error in workload analysis: " ++ e)⟩, 0)
    | .ok entries =>
      if entries.isEmpty then (⟨pick.1, [], none⟩, 0)
      else
        if ((env.validate entries).map
            (fun e => (e.query, convert_query_info_to_weight e))).isEmpty then
          (⟨pick.1, [], none⟩, 0)
        else
          match env.generate with
          | .error en => (⟨pick.1, [], some ("Error in workload analysis: " ++ en.1)⟩, en.2)
          | .ok rn => (⟨pick.1, rn.1, none⟩, rn.2 + 1)

/-- Environment for the empty-workload scenario: prechecks pass and
`pg_stat_statements` returns no rows. -/
def s1Env : OrchEnv := ⟨none, fun _ => .ok [], .ok [], id, .ok ([], 0)⟩

/-- Environment for the failing-generation scenario: prechecks pass and the
recommendation-generation step raises (for example `_index_exists` raising
`ValueError("Error parsing existing index")` on an unparseable existing
index definition) before any hypothetical index was created. -/
def errEnv : OrchEnv :=
  ⟨none, fun _ => .ok [], .ok [], id, .error ("Error parsing existing index", 0)⟩

/-- Environment for the successful scenario: generation succeeds having
performed one internal reset (the one in `generate_candidates`). -/
def okEnv : OrchEnv := ⟨none, fun _ => .ok [], .ok [], id, .ok ([], 1)⟩

/-- Claim C2 (code bug): the reset discipline the spec mandates does not
hold.  With `query_list = []` (falsy in Python) the orchestrator falls
through to the `pg_stat_statements` source, and when that yields no rows the
session returns with `recommendations = []`, `error = None` and zero
`hypopg_reset()` calls — not the one reset the claim requires.  When an
exception is raised during candidate generation or search, the session
returns with the error recorded and again no reset is executed (the reset on
line 288 sits inside the `try` block, not in a `finally`).  Only the fully
successful path resets (exactly once at orchestrator level). -/
theorem analyze_workload_reset_discipline_bug :
    analyze_workload s1Env none none (some []) = (⟨"query_store", [], none⟩, 0)
    ∧ analyze_workload errEnv (some [⟨"select a from t where a = 1", none, none⟩]) none none
        = (⟨"args", [], some "Error in workload analysis: Error parsing existing index"⟩, 0)
    ∧ analyze_workload okEnv (some [⟨"select a from t where a = 1", none, none⟩]) none none
        = (⟨"args", [], none⟩, 2)
    ∧ (0 : ℕ) ≠ 1 := by
  refine ⟨rfl, rfl, rfl, by norm_num⟩

/-- Configuration record for the greedy search
(`DatabaseTuningAdvisor._enumerate_greedy`, `dta_calc.py` lines 274-430):
the Pareto exponent (`pareto_alpha`, default 2.0, modelled as a natural
number so that the logarithmic objective comparison is decidable — see
`objective_lt_iff_log`), the minimum relative time improvement (default
0.10), the storage budget in MB, the `_check_time` oracle, and the oracles
for `_evaluate_configuration_cost`, `_estimate_index_size` and
`_get_table_size`.  Costs are modelled as finite rationals: every EXPLAIN of
the modelled sessions yields a finite total cost. -/
structure GreedyConfig where
  pareto_alpha : ℕ
  min_time_improvement : ℚ
  budget_mb : ℤ
  max_runtime_exceeded : ℕ → Bool
  costOf : Finset IndexConfig → ℚ
  sizeOf : IndexConfig → ℤ
  tableSizeOf : String → ℤ

/-- Running-best state of one iteration of the greedy inner loop
(`dta_calc.py` lines 329-333): selected candidate, its time, space, the
objective it achieved (`none` models the `float("inf")` initial objective of
an invalid current configuration), and its relative time improvement. -/
structure BestCandidateState where
  best_index : Option IndexConfig
  best_time : ℚ
  best_space : ℤ
  best_objective : Option (ℚ × ℤ)
  best_time_improvement : ℚ
deriving DecidableEq

/-- Decidable rendering of the comparison `test_objective < best_objective`
where objectives are `log(time) + alpha * log(space)`: for positive values,
`log t + alpha * log s < log t2 + alpha * log s2` iff
`t * s^alpha < t2 * s2^alpha` (proved in `objective_lt_iff_log`).  A `none`
incumbent models an infinite objective, smaller than nothing and larger than
everything finite. -/
def objective_lt (alpha : ℕ) (t : ℚ) (s : ℤ) : Option (ℚ × ℤ) → Bool
  | none => true
  | some ts => decide (t * (s : ℚ) ^ alpha < ts.1 * (ts.2 : ℚ) ^ alpha)

/-- Faithfulness of `objective_lt` to the source's logarithmic objective
`math.log(time) + alpha * math.log(space)` (`dta_calc.py` lines 315, 366):
on positive inputs the power comparison decides exactly the log
comparison. -/
theorem objective_lt_iff_log (alpha : ℕ) (t s t2 s2 : ℚ)
    (ht : 0 < t) (hs : 0 < s) (ht2 : 0 < t2) (hs2 : 0 < s2) :
    (Real.log t + alpha * Real.log s < Real.log t2 + alpha * Real.log s2
      ↔ t * s ^ alpha < t2 * s2 ^ alpha) := by
  have hsR : (0 : ℝ) < (s : ℝ) := by exact_mod_cast hs
  have htR : (0 : ℝ) < (t : ℝ) := by exact_mod_cast ht
  have hs2R : (0 : ℝ) < (s2 : ℝ) := by exact_mod_cast hs2
  have ht2R : (0 : ℝ) < (t2 : ℝ) := by exact_mod_cast ht2
  rw [show ((alpha : ℝ)) * Real.log (s : ℝ) = Real.log ((s : ℝ) ^ alpha) from
      (Real.log_pow (s : ℝ) alpha).symm,
    show ((alpha : ℝ)) * Real.log (s2 : ℝ) = Real.log ((s2 : ℝ) ^ alpha) from
      (Real.log_pow (s2 : ℝ) alpha).symm,
    ← Real.log_mul (ne_of_gt htR) (pow_ne_zero alpha (ne_of_gt hsR)),
    ← Real.log_mul (ne_of_gt ht2R) (pow_ne_zero alpha (ne_of_gt hs2R)),
    Real.log_lt_log_iff (by positivity) (by positivity)]
  constructor
  · intro h
    exact_mod_cast h
  · intro h
    exact_mod_cast h

/-- Translation of the per-candidate body of the greedy inner loop
(`dta_calc.py` lines 335-379): budget filter on
`test_space - base_relation_size`, minimum-improvement filter on
`(current_time - test_time) / current_time`, then the update condition
`test_objective < best_objective and time_improvement >
best_time_improvement`. -/
def consider_candidate (cfg : GreedyConfig) (base_relation_size : ℤ)
    (current_indexes : Finset IndexConfig) (current_time : ℚ) (current_space : ℤ)
    (st : BestCandidateState) (c : IndexConfig) : BestCandidateState :=
  if 0 < cfg.budget_mb ∧
      cfg.budget_mb * 1024 * 1024 < current_space + cfg.sizeOf c - base_relation_size then
    st
  else if (current_time - cfg.costOf (insert c current_indexes)) / current_time
      < cfg.min_time_improvement then
    st
  else if objective_lt cfg.pareto_alpha (cfg.costOf (insert c current_indexes))
        (current_space + cfg.sizeOf c) st.best_objective
      && decide (st.best_time_improvement
        < (current_time - cfg.costOf (insert c current_indexes)) / current_time) then
    ⟨some c, cfg.costOf (insert c current_indexes), current_space + cfg.sizeOf c,
      some (cfg.costOf (insert c current_indexes), current_space + cfg.sizeOf c),
      (current_time - cfg.costOf (insert c current_indexes)) / current_time⟩
  else st

/-- Translation of the full inner candidate loop of one greedy iteration
(`dta_calc.py` lines 328-379): fold `consider_candidate` over the candidate
set (in its Python set-iteration order, here an explicit list), starting from
`best_index = None`, `best_time = current_time`, `best_space =
current_space`, `best_objective = current_objective`,
`best_time_improvement = 0`. -/
def select_best (cfg : GreedyConfig) (base_relation_size : ℤ)
    (current_indexes : Finset IndexConfig) (current_time : ℚ) (current_space : ℤ)
    (current_objective : Option (ℚ × ℤ)) (candidate_indexes : List IndexConfig) :
    BestCandidateState :=
  candidate_indexes.foldl
    (consider_candidate cfg base_relation_size current_indexes current_time current_space)
    ⟨none, current_time, current_space, current_objective, 0⟩

/-- Translation of the greedy `while True` loop (`dta_calc.py` lines
327-414): run the inner loop; stop when no candidate was selected; otherwise
move the winner from the candidate set into the current configuration,
update time/space/objective, and re-check the runtime limit.  Fuel bounds the
recursion; `candidate_indexes.length + 1` steps always suffice because each
iteration consumes one candidate. -/
def enumerate_greedy_go (cfg : GreedyConfig) (base_relation_size : ℤ) :
    ℕ → Finset IndexConfig → List IndexConfig → ℚ → ℤ → Option (ℚ × ℤ) → ℕ →
      Finset IndexConfig × ℚ
  | 0, current, _, t, _, _, _ => (current, t)
  | fuel + 1, current, cands, t, s, obj, iteration =>
    let st := select_best cfg base_relation_size current t s obj cands
    match st.best_index with
    | none => (current, t)
    | some b =>
      if cfg.max_runtime_exceeded iteration then (insert b current, st.best_time)
      else
        enumerate_greedy_go cfg base_relation_size fuel (insert b current) (cands.erase b)
          st.best_time st.best_space st.best_objective (iteration + 1)

/-- Translation of `_enumerate_greedy`'s prologue (`dta_calc.py` lines
299-325): base relation size is the summed table size over the distinct
tables of the candidates, current space adds the sizes of the current
indexes, and the initial objective is finite only when both the current cost
and the current space are positive. -/
def enumerate_greedy (cfg : GreedyConfig) (current_indexes : Finset IndexConfig)
    (current_cost : ℚ) (candidate_indexes : List IndexConfig) :
    Finset IndexConfig × ℚ :=
  enumerate_greedy_go cfg
    (((candidate_indexes.map (fun c => c.table)).dedup.map cfg.tableSizeOf).sum)
    (candidate_indexes.length + 1) current_indexes candidate_indexes current_cost
    ((((candidate_indexes.map (fun c => c.table)).dedup.map cfg.tableSizeOf).sum)
      + current_indexes.sum (fun i => cfg.sizeOf i))
    (if 0 < current_cost ∧
        0 < (((candidate_indexes.map (fun c => c.table)).dedup.map cfg.tableSizeOf).sum)
          + current_indexes.sum (fun i => cfg.sizeOf i) then
      some (current_cost,
        (((candidate_indexes.map (fun c => c.table)).dedup.map cfg.tableSizeOf).sum)
          + current_indexes.sum (fun i => cfg.sizeOf i))
    else none) 1

/-- Translation of `DatabaseTuningAdvisor._generate_recommendations`
(`dta_calc.py` lines 69-163): the single empty seed is evaluated, the greedy
search expands it (its finite final cost always beats the initial
`float("inf")`, so it becomes `best_config`), and the formatting loop walks
`best_config[0]` — a Python `set`, whose unspecified iteration order is the
parameter `set_enum` (a faithful instantiation enumerates exactly the
elements of the final configuration). -/
def generate_recommendations (cfg : GreedyConfig) (queries : List String)
    (all_candidates : List IndexConfig)
    (set_enum : Finset IndexConfig → List IndexConfig) : List IndexRecommendation :=
  format_recommendations cfg.costOf cfg.sizeOf cfg.budget_mb queries
    (set_enum (enumerate_greedy cfg ∅ (cfg.costOf ∅) all_candidates).1)

/-- Claim C8 (amended): a candidate replaces the running best of a greedy
iteration only when its objective is strictly lower than the incumbent's and
its time improvement strictly greater; in particular a candidate whose
objective ties the incumbent's is skipped and the incumbent is kept — there
is no tie-break in favor of higher time improvement. -/
theorem consider_candidate_equal_objective_keeps_incumbent (cfg : GreedyConfig)
    (base_relation_size : ℤ) (current_indexes : Finset IndexConfig)
    (current_time : ℚ) (current_space : ℤ) (st : BestCandidateState)
    (c : IndexConfig) (t2 : ℚ) (s2 : ℤ)
    (hobj : st.best_objective = some (t2, s2))
    (heq : cfg.costOf (insert c current_indexes)
        * ((current_space + cfg.sizeOf c : ℤ) : ℚ) ^ cfg.pareto_alpha
      = t2 * (s2 : ℚ) ^ cfg.pareto_alpha) :
    consider_candidate cfg base_relation_size current_indexes current_time
      current_space st c = st := by
  by_cases h1 : 0 < cfg.budget_mb ∧
      cfg.budget_mb * 1024 * 1024 < current_space + cfg.sizeOf c - base_relation_size
  · simp [consider_candidate, h1]
  · by_cases h2 : (current_time - cfg.costOf (insert c current_indexes)) / current_time
        < cfg.min_time_improvement
    · simp [consider_candidate, h1, h2]
    · have heq2 : cfg.costOf (insert c current_indexes)
          * ((current_space : ℚ) + (cfg.sizeOf c : ℚ)) ^ cfg.pareto_alpha
          = t2 * (s2 : ℚ) ^ cfg.pareto_alpha := by
        push_cast at heq
        exact heq
      simp [consider_candidate, h1, h2, objective_lt, hobj, heq2]

/-- Distinctness facts about the concrete candidates, used to reduce the
concrete cost-oracle case splits. -/
theorem cfgA_ne_cfgB : cfgA ≠ cfgB := by decide

/-- Distinctness of the concrete candidates in the other direction. -/
theorem cfgB_ne_cfgA : cfgB ≠ cfgA := by decide

/-- Cost oracle for the equal-objective scenario: empty configuration 800,
index `a` alone 1, index `b` alone 4 (both indexes together unused). -/
def c8CostOf : Finset IndexConfig → ℚ := fun s =>
  if cfgA ∈ s then (if cfgB ∈ s then 1/2 else 1) else (if cfgB ∈ s then 4 else 800)

/-- Greedy configuration for the equal-objective scenario: alpha 2, minimum
improvement 0.10, no budget, no timeout, index sizes 3 bytes for `a` and 1
byte for `b`, table size 1 byte. -/
def c8Cfg : GreedyConfig :=
  ⟨2, 1/10, -1, fun _ => false, c8CostOf, fun c => if c = cfgA then 3 else 1, fun _ => 1⟩

/-- Witness for claim C8's amended theorem: with incumbent `b` (time 4, space
2, objective pair `(4, 2)`) the candidate `a` (time 1, space 4) ties the
objective, `1 * 4^2 = 4 * 2^2`, and the incumbent is kept unchanged. -/
theorem consider_candidate_equal_objective_witness :
    consider_candidate c8Cfg 1 ∅ 800 1 ⟨some cfgB, 4, 2, some (4, 2), 199/200⟩ cfgA
      = ⟨some cfgB, 4, 2, some (4, 2), 199/200⟩ := by
  refine consider_candidate_equal_objective_keeps_incumbent c8Cfg 1 ∅ 800 1
    ⟨some cfgB, 4, 2, some (4, 2), 199/200⟩ cfgA 4 2 rfl ?_
  norm_num [c8CostOf, c8Cfg, cfgA_ne_cfgB, cfgB_ne_cfgA]

/-- Counterexample to claim C8 as stated: in an iteration over the candidate
order `[b, a]`, both candidates pass the budget and improvement filters and
have exactly equal objectives (`1 * 4^2 = 4 * 2^2 = 16`), while `a` has the
strictly higher time improvement; the claimed tie-break would select `a`,
but the code keeps the earlier candidate `b`. -/
theorem select_best_no_tiebreak_counterexample :
    (select_best c8Cfg 1 ∅ 800 1 (some (800, 1)) [cfgB, cfgA]).best_index = some cfgB
    ∧ c8CostOf {cfgA} * ((1 + 3 : ℤ) : ℚ) ^ 2 = c8CostOf {cfgB} * ((1 + 1 : ℤ) : ℚ) ^ 2
    ∧ (800 - c8CostOf {cfgA}) / 800 > (800 - c8CostOf {cfgB}) / 800
    ∧ some cfgB ≠ some cfgA := by
  refine ⟨?_, ?_, ?_, ?_⟩
  · norm_num [select_best, consider_candidate, objective_lt, c8Cfg, c8CostOf,
      cfgA_ne_cfgB, cfgB_ne_cfgA]
  · norm_num [c8CostOf, cfgA_ne_cfgB, cfgB_ne_cfgA]
  · norm_num [c8CostOf, cfgA_ne_cfgB, cfgB_ne_cfgA]
  · simp [cfgA_ne_cfgB, cfgB_ne_cfgA]

/-- Invariant of the greedy inner loop: either no candidate has been selected
yet, or the running best's time improvement is at least the configured
minimum and is exactly the relative improvement of its time over the
iteration's current time. -/
def ThresholdInv (m current_time : ℚ) (st : BestCandidateState) : Prop :=
  st.best_index = none
  ∨ (m ≤ st.best_time_improvement
      ∧ st.best_time_improvement = (current_time - st.best_time) / current_time)

/-- One step of the greedy inner loop preserves `ThresholdInv`: a candidate
below the minimum improvement is filtered out before it can become the
running best. -/
theorem consider_candidate_threshold_inv (cfg : GreedyConfig) (base_relation_size : ℤ)
    (current_indexes : Finset IndexConfig) (current_time : ℚ) (current_space : ℤ)
    (st : BestCandidateState) (c : IndexConfig)
    (h : ThresholdInv cfg.min_time_improvement current_time st) :
    ThresholdInv cfg.min_time_improvement current_time
      (consider_candidate cfg base_relation_size current_indexes current_time
        current_space st c) := by
  unfold consider_candidate
  split_ifs with h1 h2 h3
  · exact h
  · exact h
  · exact Or.inr ⟨le_of_not_lt h2, rfl⟩
  · exact h

/-- The whole inner loop preserves `ThresholdInv` from its initial state
(`best_index = None`). -/
theorem select_best_threshold_inv (cfg : GreedyConfig) (base_relation_size : ℤ)
    (current_indexes : Finset IndexConfig) (current_time : ℚ) (current_space : ℤ)
    (current_objective : Option (ℚ × ℤ)) (candidate_indexes : List IndexConfig) :
    ThresholdInv cfg.min_time_improvement current_time
      (select_best cfg base_relation_size current_indexes current_time current_space
        current_objective candidate_indexes) := by
  have hfold : ∀ (l : List IndexConfig) (st : BestCandidateState),
      ThresholdInv cfg.min_time_improvement current_time st →
      ThresholdInv cfg.min_time_improvement current_time
        (l.foldl (consider_candidate cfg base_relation_size current_indexes current_time
          current_space) st) := by
    intro l
    induction l with
    | nil => intro st h; simpa using h
    | cons c rest ih =>
      intro st h
      exact ih _ (consider_candidate_threshold_inv cfg base_relation_size current_indexes
        current_time current_space st c h)
  exact hfold candidate_indexes ⟨none, current_time, current_space, current_objective, 0⟩
    (Or.inl rfl)

/-- Claim C4 (amended): every index accepted by an iteration of the greedy
search satisfies the minimum-improvement threshold against that iteration's
current cost — if the inner loop selects a candidate, its relative time
improvement is at least `min_time_improvement` (default 0.10), so its new
cost is at most `current_time * (1 - min_time_improvement)` whenever the
current cost is positive.  The formatting loop does not re-check this
threshold, so the returned recommendations' progressive costs satisfy the
bound only when the final set is enumerated in greedy selection order. -/
theorem select_best_time_improvement_threshold (cfg : GreedyConfig)
    (base_relation_size : ℤ) (current_indexes : Finset IndexConfig)
    (current_time : ℚ) (current_space : ℤ) (current_objective : Option (ℚ × ℤ))
    (candidate_indexes : List IndexConfig) (c : IndexConfig)
    (hsel : (select_best cfg base_relation_size current_indexes current_time
        current_space current_objective candidate_indexes).best_index = some c)
    (hpos : 0 < current_time) :
    cfg.min_time_improvement ≤ (select_best cfg base_relation_size current_indexes
        current_time current_space current_objective candidate_indexes).best_time_improvement
    ∧ (select_best cfg base_relation_size current_indexes current_time current_space
        current_objective candidate_indexes).best_time
      ≤ current_time * (1 - cfg.min_time_improvement) := by
  rcases select_best_threshold_inv cfg base_relation_size current_indexes current_time
      current_space current_objective candidate_indexes with h | ⟨h1, h2⟩
  · rw [hsel] at h
    exact absurd h (by simp)
  · refine ⟨h1, ?_⟩
    have h3 : cfg.min_time_improvement ≤
        (current_time - (select_best cfg base_relation_size current_indexes current_time
          current_space current_objective candidate_indexes).best_time) / current_time := by
      rw [← h2]
      exact h1
    rw [le_div_iff₀ hpos] at h3
    have hring : current_time * (1 - cfg.min_time_improvement)
        = current_time - cfg.min_time_improvement * current_time := by ring
    linarith

/-- Cost oracle for the two-candidate pipeline run: empty configuration 100,
index `a` alone 80, index `b` alone 95, both together 60. -/
def c4CostOf : Finset IndexConfig → ℚ := fun s =>
  if cfgA ∈ s then (if cfgB ∈ s then 60 else 80) else (if cfgB ∈ s then 95 else 100)

/-- Greedy configuration for the pipeline run: alpha 2, minimum improvement
0.10, no budget, no timeout, zero index sizes, table size 1 byte. -/
def c4Cfg : GreedyConfig :=
  ⟨2, 1/10, -1, fun _ => false, c4CostOf, fun _ => 0, fun _ => 1⟩

/-- Recommendations of the pipeline run when the Python set
`best_config[0] = {a, b}` happens to be iterated as `[b, a]` — the reverse of
the greedy selection order `[a, b]`. -/
def c4Recs : List IndexRecommendation :=
  generate_recommendations c4Cfg ["q"] [cfgA, cfgB] (fun _ => [cfgB, cfgA])

/-- Witness for claim C4's amended theorem at the first greedy iteration of
the pipeline run: the selected candidate (`a`, new cost 80 from current cost
100) meets the 10 percent threshold. -/
theorem select_best_time_improvement_threshold_witness :
    c4Cfg.min_time_improvement ≤ (select_best c4Cfg 1 ∅ 100 1 (some (100, 1))
        [cfgA, cfgB]).best_time_improvement
    ∧ (select_best c4Cfg 1 ∅ 100 1 (some (100, 1)) [cfgA, cfgB]).best_time
      ≤ 100 * (1 - c4Cfg.min_time_improvement) :=
  select_best_time_improvement_threshold c4Cfg 1 ∅ 100 1 (some (100, 1)) [cfgA, cfgB] cfgA
    (by norm_num [select_best, consider_candidate, objective_lt, c4Cfg, c4CostOf,
      cfgA_ne_cfgB, cfgB_ne_cfgA])
    (by norm_num)

/-- Counterexample to claim C4 as stated: in the pipeline run the greedy
search selects `a` then `b` (final configuration `{a, b}`, final cost 60,
each step improving at least 10 percent), but when the formatting loop
enumerates the final set in the order `[b, a]` — a legitimate iteration order
of the Python set, which guarantees none — the first returned recommendation
has progressive base cost 100 and progressive recommended cost 95, and
`95 ≤ 100 * (1 - 0.10)` fails: a returned recommendation violates the
configured minimum improvement against its progressive base. -/
theorem generate_recommendations_threshold_counterexample :
    (enumerate_greedy c4Cfg ∅ (c4CostOf ∅) [cfgA, cfgB]).1 = insert cfgB (insert cfgA ∅)
    ∧ [cfgB, cfgA].toFinset = insert cfgB (insert cfgA ∅)
    ∧ [cfgB, cfgA].Nodup
    ∧ (c4Recs.map (fun r => (r.progressive_base_cost, r.progressive_recommendation_cost)))
        = [(100, 95), (95, 60)]
    ∧ ¬ ((95 : ℚ) ≤ 100 * (1 - c4Cfg.min_time_improvement)) := by
  have hlen : ([cfgA.table, cfgB.table]).dedup.length = 1 := by decide
  refine ⟨?_, ?_, ?_, ?_, ?_⟩
  · norm_num [enumerate_greedy, enumerate_greedy_go, select_best, consider_candidate,
      objective_lt, c4Cfg, c4CostOf, cfgA_ne_cfgB, cfgB_ne_cfgA, hlen]
  · simp
  · simp [cfgB_ne_cfgA]
  · norm_num [c4Recs, generate_recommendations, format_recommendations,
      format_recommendations_go, c4Cfg, c4CostOf, cfgA_ne_cfgB, cfgB_ne_cfgA]
  · norm_num [c4Cfg]

/-- JSON plan data as consumed by `extract_cost_from_json_plan`
(`index_opt_base.py` lines 774-795): `none` models a missing/empty plan
dictionary (falsy in Python), `some none` a plan whose root lacks a usable
`Total Cost`, and `some (some c)` a plan with root total cost `c`. -/
abbrev PlanData := Option (Option ℚ)

/-- Python truthiness of a cached plan dictionary (`if existing_plan:` on
line 399 of `index_opt_base.py`): an empty dictionary is falsy. -/
def plan_truthy : PlanData → Bool
  | none => false
  | some _ => true

/-- Translation of `IndexTuningBase.extract_cost_from_json_plan`
(`index_opt_base.py` lines 774-795): missing plan data, missing `Plan` key or
missing `Total Cost` give `float("inf")`; otherwise the root total cost. -/
def extract_cost_from_json_plan : PlanData → PCost
  | none => .inf
  | some none => .inf
  | some (some c) => .fin c

/-- Association-list lookup with decidable keys, modelling Python dict
access on the session caches. -/
def lookup_assoc {κ β : Type} [DecidableEq κ] : List (κ × β) → κ → Option β
  | [], _ => none
  | (k, v) :: rest, key => if key = k then some v else lookup_assoc rest key

/-- Session cache state of the cost estimator: `self.cost_cache` (keyed on
the frozen index set alone), `self._explain_plans_cache` (keyed on query text
and frozen index set), and a count of EXPLAIN round-trips actually performed
(calls into `generate_explain_plan_with_hypothetical_indexes`). -/
structure EvalState where
  cost_cache : List (Finset IndexConfig × PCost)
  explain_plans_cache : List ((String × Finset IndexConfig) × PlanData)
  explain_round_trips : ℕ
deriving DecidableEq

/-- Translation of `IndexTuningBase.get_explain_plan_with_indexes`
(`index_opt_base.py` lines 382-408): a truthy cached plan is returned without
a round-trip; otherwise the plan oracle (the EXPLAIN round-trip, which may
raise) is consulted and its result cached. -/
def get_explain_plan_with_indexes
    (planOracle : String → Finset IndexConfig → Except String PlanData)
    (st : EvalState) (query_text : String) (indexes : Finset IndexConfig) :
    Except String (PlanData × EvalState) :=
  match lookup_assoc st.explain_plans_cache (query_text, indexes) with
  | some p =>
    if plan_truthy p then .ok (p, st)
    else
      match planOracle query_text indexes with
      | .error e => .error e
      | .ok p2 => .ok (p2, ⟨st.cost_cache,
          ((query_text, indexes), p2) :: st.explain_plans_cache,
          st.explain_round_trips + 1⟩)
  | none =>
    match planOracle query_text indexes with
    | .error e => .error e
    | .ok p2 => .ok (p2, ⟨st.cost_cache,
        ((query_text, indexes), p2) :: st.explain_plans_cache,
        st.explain_round_trips + 1⟩)

/-- Translation of the per-query loop of `_evaluate_configuration_cost`
(`index_opt_base.py` lines 658-673): accumulate `cost * weight` into the
running total and count the query; a raised EXPLAIN error aborts the whole
evaluation (the inner `except` re-raises a `ValueError`). -/
def evaluate_configuration_go
    (planOracle : String → Finset IndexConfig → Except String PlanData)
    (indexes : Finset IndexConfig) :
    List (String × ℚ) → EvalState → PCost → ℕ → Except String (PCost × EvalState × ℕ)
  | [], st, total, valid => .ok (total, st, valid)
  | (q, w) :: rest, st, total, valid =>
    match get_explain_plan_with_indexes planOracle st q indexes with
    | .error e => .error e
    | .ok pst => evaluate_configuration_go planOracle indexes rest pst.2
        (total.add ((extract_cost_from_json_plan pst.1).mul_weight w)) (valid + 1)

/-- Translation of `IndexTuningBase._evaluate_configuration_cost`
(`index_opt_base.py` lines 645-686): a cost-cache hit returns immediately;
otherwise the workload is traversed, `float("inf")` is returned (uncached)
when no query was counted, and otherwise `total / valid_queries` is computed,
cached under the index set alone, and returned. -/
def evaluate_configuration_cost
    (planOracle : String → Finset IndexConfig → Except String PlanData)
    (st : EvalState) (weighted_workload : List (String × ℚ))
    (indexes : Finset IndexConfig) : Except String (PCost × EvalState) :=
  match lookup_assoc st.cost_cache indexes with
  | some c => .ok (c, st)
  | none =>
    match evaluate_configuration_go planOracle indexes weighted_workload st (.fin 0) 0 with
    | .error e => .error e
    | .ok tvn =>
      if tvn.2.2 = 0 then .ok (.inf, tvn.2.1)
      else .ok (tvn.1.div_nat tvn.2.2,
        ⟨(indexes, tvn.1.div_nat tvn.2.2) :: tvn.2.1.cost_cache,
          tvn.2.1.explain_plans_cache, tvn.2.1.explain_round_trips⟩)

/-- Helper: the per-query loop counts exactly one valid query per workload
entry on success. -/
theorem evaluate_configuration_go_valid
    (planOracle : String → Finset IndexConfig → Except String PlanData)
    (indexes : Finset IndexConfig) :
    ∀ (wl : List (String × ℚ)) (st : EvalState) (total : PCost) (valid : ℕ)
      (r : PCost × EvalState × ℕ),
      evaluate_configuration_go planOracle indexes wl st total valid = .ok r →
      r.2.2 = valid + wl.length := by
  intro wl
  induction wl with
  | nil =>
    intro st total valid r h
    simp only [evaluate_configuration_go, Except.ok.injEq] at h
    simp [← h]
  | cons qw rest ih =>
    intro st total valid r h
    match qw with
    | (q, w) =>
      simp only [evaluate_configuration_go] at h
      cases hg : get_explain_plan_with_indexes planOracle st q indexes with
      | error e => rw [hg] at h; exact absurd h (by simp)
      | ok pst =>
        rw [hg] at h
        have := ih pst.2 (total.add ((extract_cost_from_json_plan pst.1).mul_weight w))
          (valid + 1) r h
        simp [this]
        omega

/-- Helper: when every query's plan (from cache or oracle) is a plan with
finite root cost `f q`, the per-query loop returns the accumulated weighted
total and counts every entry. -/
theorem evaluate_configuration_go_spec
    (po : String → Finset IndexConfig → Except String PlanData)
    (S : Finset IndexConfig) (f : String → ℚ) :
    ∀ (rest : List (String × ℚ)) (st : EvalState) (total : ℚ) (valid : ℕ),
      (∀ p ∈ rest, po p.1 S = .ok (some (some (f p.1)))) →
      (∀ p ∈ rest, lookup_assoc st.explain_plans_cache (p.1, S) = none
        ∨ lookup_assoc st.explain_plans_cache (p.1, S) = some (some (some (f p.1)))) →
      ∃ st2 : EvalState,
        evaluate_configuration_go po S rest st (.fin total) valid
          = .ok (.fin (total + (rest.map (fun p => f p.1 * p.2)).sum), st2,
              valid + rest.length) := by
  intro rest
  induction rest with
  | nil =>
    intro st total valid _ _
    exact ⟨st, by simp [evaluate_configuration_go]⟩
  | cons qw rest2 ih =>
    intro st total valid hpo hinv
    match qw with
    | (q, w) =>
      have hpoq : po q S = .ok (some (some (f q))) := hpo (q, w) (List.mem_cons_self _ _)
      cases hl : lookup_assoc st.explain_plans_cache (q, S) with
      | some p =>
        have hd := hinv (q, w) (List.mem_cons_self _ _)
        rw [hl] at hd
        rcases hd with hd | hd
        · exact absurd hd (by simp)
        · have hp : p = some (some (f q)) := by
            injection hd
          subst hp
          have hge : get_explain_plan_with_indexes po st q S = .ok (some (some (f q)), st) := by
            simp [get_explain_plan_with_indexes, hl, plan_truthy]
          have hinv2 : ∀ p2 ∈ rest2, lookup_assoc st.explain_plans_cache (p2.1, S) = none
              ∨ lookup_assoc st.explain_plans_cache (p2.1, S)
                = some (some (some (f p2.1))) :=
            fun p2 hp2 => hinv p2 (List.mem_cons_of_mem _ hp2)
          obtain ⟨st2, hst2⟩ := ih st (total + f q * w) (valid + 1)
            (fun p2 hp2 => hpo p2 (List.mem_cons_of_mem _ hp2)) hinv2
          refine ⟨st2, ?_⟩
          simp only [evaluate_configuration_go, hge]
          rw [show (PCost.fin total).add
              ((extract_cost_from_json_plan (some (some (f q)))).mul_weight w)
              = PCost.fin (total + f q * w) from rfl]
          rw [hst2]
          simp only [List.map_cons, List.sum_cons, List.length_cons, Except.ok.injEq,
            Prod.mk.injEq, PCost.fin.injEq]
          exact ⟨by ring, trivial, by omega⟩
      | none =>
        have hge : get_explain_plan_with_indexes po st q S
            = .ok (some (some (f q)),
                ⟨st.cost_cache, ((q, S), some (some (f q))) :: st.explain_plans_cache,
                  st.explain_round_trips + 1⟩) := by
          simp [get_explain_plan_with_indexes, hl, hpoq]
        have hinv2 : ∀ p2 ∈ rest2,
            lookup_assoc (((q, S), (some (some (f q)) : PlanData))
                :: st.explain_plans_cache) (p2.1, S) = none
            ∨ lookup_assoc (((q, S), (some (some (f q)) : PlanData))
                :: st.explain_plans_cache) (p2.1, S)
              = some (some (some (f p2.1))) := by
          intro p2 hp2
          by_cases hq : (p2.1, S) = (q, S)
          · right
            have hq2 : p2.1 = q := (Prod.mk.injEq _ _ _ _).mp hq |>.1
            simp [lookup_assoc, hq, hq2]
          · have := hinv p2 (List.mem_cons_of_mem _ hp2)
            simpa [lookup_assoc, hq] using this
        obtain ⟨st2, hst2⟩ := ih
          ⟨st.cost_cache, ((q, S), some (some (f q))) :: st.explain_plans_cache,
            st.explain_round_trips + 1⟩
          (total + f q * w) (valid + 1)
          (fun p2 hp2 => hpo p2 (List.mem_cons_of_mem _ hp2)) hinv2
        refine ⟨st2, ?_⟩
        simp only [evaluate_configuration_go, hge]
        rw [show (PCost.fin total).add
            ((extract_cost_from_json_plan (some (some (f q)))).mul_weight w)
            = PCost.fin (total + f q * w) from rfl]
        rw [hst2]
        simp only [List.map_cons, List.sum_cons, List.length_cons, Except.ok.injEq,
          Prod.mk.injEq, PCost.fin.injEq]
        exact ⟨by ring, trivial, by omega⟩

/-- Claim C6 (amended): `_evaluate_configuration_cost` returns
`(sum over queries of cost * weight) / (number of queries)` — the divisor is
the query count, not the total weight, so for weights other than 1 this is
not the weighted average of per-query costs; it returns positive infinity
when the workload is empty (with a non-empty workload a missing plan makes
every term infinite, hence the result); and on a successful pass over a
non-empty workload the result is cached keyed on the index set alone, so a
repeated call with the same index set returns the identical value with the
state unchanged — zero further EXPLAIN round-trips. -/
theorem evaluate_configuration_cost_cache_and_average
    (po : String → Finset IndexConfig → Except String PlanData) (st : EvalState)
    (W : List (String × ℚ)) (S : Finset IndexConfig) (c : PCost) (st2 : EvalState)
    (f : String → ℚ) :
    (lookup_assoc st.cost_cache S = none →
        evaluate_configuration_cost po st [] S = .ok (.inf, st))
    ∧ (W ≠ [] → evaluate_configuration_cost po st W S = .ok (c, st2) →
        evaluate_configuration_cost po st2 W S = .ok (c, st2))
    ∧ (W ≠ [] → st.cost_cache = [] → st.explain_plans_cache = [] →
        (∀ p ∈ W, po p.1 S = .ok (some (some (f p.1)))) →
        (evaluate_configuration_cost po st W S).toOption.map Prod.fst
          = some (.fin ((W.map (fun p => f p.1 * p.2)).sum / W.length))) := by
  refine ⟨?_, ?_, ?_⟩
  · intro hcc
    simp [evaluate_configuration_cost, hcc, evaluate_configuration_go]
  · intro hW h1
    cases hl : lookup_assoc st.cost_cache S with
    | some c0 =>
      simp only [evaluate_configuration_cost, hl, Except.ok.injEq, Prod.mk.injEq] at h1
      obtain ⟨h1c, h1s⟩ := h1
      subst h1c
      subst h1s
      simp [evaluate_configuration_cost, hl]
    | none =>
      simp only [evaluate_configuration_cost, hl] at h1
      cases hgo : evaluate_configuration_go po S W st (.fin 0) 0 with
      | error e =>
        rw [hgo] at h1
        exact absurd h1 (by simp)
      | ok tvn =>
        rw [hgo] at h1
        dsimp only at h1
        have hv := evaluate_configuration_go_valid po S W st (.fin 0) 0 tvn hgo
        have hlp : 0 < W.length := List.length_pos.mpr hW
        have hne : tvn.2.2 ≠ 0 := by omega
        rw [if_neg hne] at h1
        simp only [Except.ok.injEq, Prod.mk.injEq] at h1
        obtain ⟨h1c, h1s⟩ := h1
        subst h1c
        have hl2 : lookup_assoc st2.cost_cache S = some (tvn.1.div_nat tvn.2.2) := by
          rw [← h1s]
          simp [lookup_assoc]
        rw [evaluate_configuration_cost.eq_def]
        rw [hl2]
  · intro hW hcc hpc hpo
    have hinv : ∀ p ∈ W, lookup_assoc st.explain_plans_cache (p.1, S) = none
        ∨ lookup_assoc st.explain_plans_cache (p.1, S)
          = some (some (some (f p.1))) := by
      intro p _
      left
      rw [hpc]
      rfl
    obtain ⟨st2x, hgo⟩ := evaluate_configuration_go_spec po S f W st 0 0 hpo hinv
    have hl0 : lookup_assoc st.cost_cache S = none := by
      rw [hcc]
      rfl
    have hlp : 0 < W.length := List.length_pos.mpr hW
    simp only [evaluate_configuration_cost, hl0, hgo]
    rw [if_neg (by simpa using hlp.ne')]
    simp [PCost.div_nat]
    exact ⟨_, rfl⟩

/-- Plan oracle for the concrete evaluation runs: every EXPLAIN returns a
plan whose root total cost is 10. -/
def c6PlanOracle : String → Finset IndexConfig → Except String PlanData :=
  fun _ _ => .ok (some (some 10))

/-- Fresh session cache state. -/
def c6St0 : EvalState := ⟨[], [], 0⟩

/-- Cache state after one full evaluation of the one-query workload
`[("q", 2)]` under the empty index configuration: one EXPLAIN round-trip,
the plan cached, and the cost 20 cached under the empty set. -/
def c6StAfter : EvalState :=
  ⟨[(∅, .fin 20)], [(("q", ∅), some (some 10))], 1⟩

/-- Witness for claim C6's amended theorem: an empty workload evaluates to
infinity; re-evaluating the one-query workload from the post-evaluation
state returns the identical cached value with the state (and hence the
EXPLAIN round-trip count) unchanged; and from a fresh state the returned
value is the weighted total divided by the query count. -/
theorem evaluate_configuration_cost_cache_and_average_witness :
    evaluate_configuration_cost c6PlanOracle c6St0 [] ∅ = .ok (.inf, c6St0)
    ∧ evaluate_configuration_cost c6PlanOracle c6StAfter [("q", 2)] ∅
        = .ok (.fin 20, c6StAfter)
    ∧ (evaluate_configuration_cost c6PlanOracle c6St0 [("q", 2)] ∅).toOption.map Prod.fst
        = some (.fin (([("q", 2)].map
            (fun p : String × ℚ => (fun _ : String => (10 : ℚ)) p.1 * p.2)).sum
          / ([("q", 2)] : List (String × ℚ)).length)) := by
  have h := evaluate_configuration_cost_cache_and_average c6PlanOracle c6St0 [("q", 2)] ∅
    (.fin 20) c6StAfter (fun _ => (10 : ℚ))
  refine ⟨h.1 rfl, ?_, ?_⟩
  · refine h.2.1 (by simp) ?_
    norm_num [evaluate_configuration_cost, evaluate_configuration_go,
      get_explain_plan_with_indexes, lookup_assoc, c6PlanOracle, c6St0, c6StAfter,
      extract_cost_from_json_plan, PCost.add, PCost.mul_weight, PCost.div_nat, plan_truthy]
  · exact h.2.2 (by simp) rfl rfl (fun p _ => rfl)

/-- Counterexample to claim C6 as stated: for the one-query workload with
weight 2 and plan cost 10, the code returns `(10 * 2) / 1 = 20`, while the
weighted average of per-query plan costs is `(10 * 2) / 2 = 10` — the
divisor is the query count, not the sum of weights. -/
theorem evaluate_configuration_cost_weighted_average_counterexample :
    (evaluate_configuration_cost c6PlanOracle c6St0 [("select a from t", 2)] ∅).toOption.map
        Prod.fst = some (.fin 20)
    ∧ (10 * 2 / 2 : ℚ) = 10
    ∧ PCost.fin 20 ≠ PCost.fin 10 := by
  refine ⟨?_, by norm_num, ?_⟩
  · norm_num [evaluate_configuration_cost, evaluate_configuration_go,
      get_explain_plan_with_indexes, lookup_assoc, c6PlanOracle, c6St0,
      extract_cost_from_json_plan, PCost.add, PCost.mul_weight, PCost.div_nat, plan_truthy]
    exact ⟨_, rfl⟩
  · simp only [ne_eq, PCost.fin.injEq]
    norm_num
